import Mathlib

/-!
# time-interval-exporter

A shallow embedding of `main.go`: the value functions behind the gauges
`epoch_seconds` and `time_interval`, and the startup sequence of `main`
(schedule resolution from the command line, registration of the gauges).

Instants are counted in nanoseconds since 1970-01-01T00:00:00Z (UTC) and
durations in nanoseconds, as `time.Duration` does.  The cron evaluator
(`cronexpr.Parse`, `Expression.Next`) is a dependency whose code is not part of
the repository; the value functions take it as an argument, and a model of it
written from the specification is given in the second half of the definitions.
-/

namespace TimeIntervalExporter

/-! ## Durations and instants

An instant (`time.Time`) is an `Int`, the nanoseconds since the Unix epoch, and
so is a duration (`time.Duration`), a signed number of nanoseconds. -/

/-- The constant `time.Second`. -/
def Second : Int := 1000000000

/-- The constant `time.Minute`. -/
def Minute : Int := 60 * Second

/-- The least `time.Duration`, the least 64-bit signed integer. -/
def minDuration : Int := -9223372036854775808

/-- The greatest `time.Duration`, the greatest 64-bit signed integer. -/
def maxDuration : Int := 9223372036854775807

/-- The method `Time.Sub`: the duration `t - u`, replaced by the least or the
greatest duration when the difference does not fit 64 bits. -/
def Sub (t u : Int) : Int :=
  if t - u < minDuration then minDuration
  else if maxDuration < t - u then maxDuration
  else t - u

/-- The method `Time.Unix`: whole seconds elapsed since the Unix epoch. -/
def Unix (t : Int) : Int := t / Second

/-! ## Conversion of a 64-bit integer to `float64`

A `float64` holding an integer is represented by that integer. -/

/-- Rounding of a natural number to a multiple of `2 ^ e`, to the nearest one,
and to the even multiple when two are equally near. -/
def roundToMultiple (e a : Nat) : Nat :=
  let q := a / 2 ^ e
  let r := a % 2 ^ e
  let h := 2 ^ (e - 1)
  if r < h then q * 2 ^ e
  else if h < r then (q + 1) * 2 ^ e
  else if q % 2 = 0 then q * 2 ^ e
  else (q + 1) * 2 ^ e

/-- Rounding of a natural number to a 53-bit significand, ties to even: a
number of `k + 1` bits with `53 ≤ k` is rounded to a multiple of
`2 ^ (k - 52)`. -/
def roundNat53 (a : Nat) : Nat :=
  if a < 2 ^ 53 then a else roundToMultiple (Nat.log2 a - 52) a

/-- The conversion `float64(n)` of an integer: the nearest value with a 53-bit
significand, ties to even. -/
def float64OfInt (n : Int) : Int :=
  if 0 ≤ n then (roundNat53 n.toNat : Int) else -(roundNat53 (-n).toNat : Int)

/-! ## The value functions of `main` -/

/-- The value function of the gauge `epoch_seconds`, at the instant `now` it
reads from the clock: `float64(time.Now().Unix())`. -/
def epochSeconds (now : Int) : Int :=
  float64OfInt (Unix now)

/-- The value function of the gauge `time_interval`, at the instant `now` it
reads from the clock.  `Next` is the method `cronExpr.Next` of the resolved
schedule.  The results `1` and `0` are the `float64` values returned. -/
def timeInterval (Next : Int → Int) (now : Int) : Int :=
  let nextTime := Next now
  if Sub nextTime now < 1 * Minute then 1 else 0

/-! ## Startup: flags and registration -/

/-- The argument of `cronexpr.MustParse` in `main`. -/
def defaultCronExpression : String :=
  "0-5,10-15,20-25,30-35,40-45,50-55 * * * *"

/-- One flag occurrence on the command line, in the order given.  The value of
`-oscillation-period` is the duration its text denotes; `rejected` stands for
an argument that the flag package itself refuses (an undefined flag, a
duration that cannot be read, a request for help). -/
inductive FlagArg where
  | listenAddress (value : String)
  | oscillationPeriod (value : Int)
  | cronExpression (value : String)
  | rejected
deriving DecidableEq

/-- The variables of `main` that the flags write to. -/
structure FlagState (S : Type) where
  addr : String
  oscillationPeriod : Int
  cronExpr : S

/-- The function `flag.Parse`: the occurrences are handled from left to right;
`-cron-expression` runs the callback given to `flag.Func`, which stores the
result of `cronexpr.Parse` and returns its error; the first error ends the
process (`none`). -/
def flagParse {E S : Type} (parse : String → Except E S) :
    List FlagArg → FlagState S → Option (FlagState S)
  | [], st => some st
  | FlagArg.listenAddress v :: rest, st =>
    flagParse parse rest { st with addr := v }
  | FlagArg.oscillationPeriod d :: rest, st =>
    flagParse parse rest { st with oscillationPeriod := d }
  | FlagArg.cronExpression v :: rest, st =>
    match parse v with
    | Except.ok e => flagParse parse rest { st with cronExpr := e }
    | Except.error _ => none
  | FlagArg.rejected :: _, _ => none

/-- The value function behind a registered collector. -/
inductive GaugeFunc (S : Type) where
  | epochSeconds
  | oscillation (start : Int) (period : Int)
  | timeInterval (cronExpr : S)
  | buildInfo

/-- The default registry: the registered collectors by name, oldest first. -/
abbrev Registry (S : Type) := List (String × GaugeFunc S)

/-- The function `prometheus.MustRegister` for one collector: a name that is
already registered makes it panic (`none`). -/
def mustRegister {S : Type} (reg : Registry S) (name : String) (fn : GaugeFunc S) :
    Option (Registry S) :=
  if reg.any (fun entry => entry.1 == name) then none
  else some (reg ++ [(name, fn)])

/-- How `main` ends up. -/
inductive Outcome (S : Type) where
  | panicked
  | exited
  | serving (addr : String) (registry : Registry S)

/-- The function `main` up to the call of `http.ListenAndServe`.  `parse` is
`cronexpr.Parse`, `args` the flag occurrences of the command line and `start`
the instant read into `start`. -/
def main {E S : Type} (parse : String → Except E S) (args : List FlagArg)
    (start : Int) : Outcome S :=
  match parse defaultCronExpression with
  | Except.error _ => Outcome.panicked
  | Except.ok dflt =>
    match flagParse parse args ⟨":8080", 5 * Minute, dflt⟩ with
    | none => Outcome.exited
    | some st =>
      let registered :=
        (mustRegister [] "epoch_seconds" GaugeFunc.epochSeconds).bind fun r1 =>
        (mustRegister r1 "sin" (GaugeFunc.oscillation start st.oscillationPeriod)).bind fun r2 =>
        (mustRegister r2 "time_interval" (GaugeFunc.timeInterval st.cronExpr)).bind fun r3 =>
        mustRegister r3 "go_build_info" GaugeFunc.buildInfo
      match registered with
      | none => Outcome.panicked
      | some reg => Outcome.serving st.addr reg

/-- The values given to `-cron-expression`, in command-line order. -/
def cronValues : List FlagArg → List String
  | [] => []
  | FlagArg.cronExpression v :: rest => v :: cronValues rest
  | _ :: rest => cronValues rest

/-! ## Calendar fields of an instant (UTC) -/

/-- Modelled from the spec: the nanosecond within the second of an instant (the
calendar accessors of the time package are not part of the repository). -/
def nanosecondOf (t : Int) : Nat := (t % Second).toNat

/-- Modelled from the spec: the second within the minute of an instant (the
calendar accessors of the time package are not part of the repository). -/
def secondOf (t : Int) : Nat := (t / Second % 60).toNat

/-- Modelled from the spec: the minute within the hour of an instant (the
calendar accessors of the time package are not part of the repository). -/
def minuteOf (t : Int) : Nat := (t / Minute % 60).toNat

/-- Modelled from the spec: the hour within the day of an instant (the calendar
accessors of the time package are not part of the repository). -/
def hourOf (t : Int) : Nat := (t / (60 * Minute) % 24).toNat

/-- Modelled from the spec: the number of whole days from the Unix epoch to an
instant (the calendar accessors of the time package are not part of the
repository). -/
def dayNumber (t : Int) : Int := t / (1440 * Minute)

/-- Modelled from the spec: the day of the week of an instant, Sunday being 0;
1970-01-01 was a Thursday (the calendar accessors of the time package are not
part of the repository). -/
def weekdayOf (t : Int) : Nat := ((dayNumber t + 4) % 7).toNat

/-- Modelled from the spec: the day within the 400-year cycle of the Gregorian
calendar, cycles starting on a 1 March (the calendar accessors of the time
package are not part of the repository). -/
def dayOfEra (t : Int) : Int := (dayNumber t + 719468) % 146097

/-- Modelled from the spec: the day within the year that starts on 1 March,
from the day within the 400-year cycle (the calendar accessors of the time
package are not part of the repository). -/
def dayOfMarchYear (doe : Int) : Int :=
  let yoe := (doe - doe / 1460 + doe / 36524 - doe / 146096) / 365
  doe - (365 * yoe + yoe / 4 - yoe / 100)

/-- Modelled from the spec: the month of an instant, January being 1, in the
proleptic Gregorian calendar (the calendar accessors of the time package are
not part of the repository). -/
def monthOf (t : Int) : Nat :=
  let mp := (5 * dayOfMarchYear (dayOfEra t) + 2) / 153
  (if mp < 10 then mp + 3 else mp - 9).toNat

/-- Modelled from the spec: the day of the month of an instant, from 1, in the
proleptic Gregorian calendar (the calendar accessors of the time package are
not part of the repository). -/
def dayOf (t : Int) : Nat :=
  let doy := dayOfMarchYear (dayOfEra t)
  let mp := (5 * doy + 2) / 153
  (doy - (153 * mp + 2) / 5 + 1).toNat

/-! ## The cron schedule evaluator -/

/-- Modelled from the spec: the fields of a parsed recurrence expression, each
the list of the values it admits (`cronexpr.Expression` is not part of the
repository). -/
structure Schedule where
  minute : List Nat
  hour : List Nat
  dom : List Nat
  month : List Nat
  dow : List Nat
deriving DecidableEq

/-- Modelled from the spec: an instant satisfies a schedule when it is a whole
minute and its minute, hour, day of month, month and day of week each satisfy
the constraint of their field (the matching of `cronexpr` is not part of the
repository). -/
def Schedule.matchesAt (s : Schedule) (t : Int) : Bool :=
  nanosecondOf t == 0 && secondOf t == 0 &&
  s.minute.contains (minuteOf t) && s.hour.contains (hourOf t) &&
  s.dom.contains (dayOf t) && s.month.contains (monthOf t) &&
  s.dow.contains (weekdayOf t)

/-- Modelled from the spec: the pieces of a text between the occurrences of a
separator (the parser of `cronexpr` is not part of the repository). -/
def splitAt (sep : Char) : List Char → List (List Char)
  | [] => [[]]
  | c :: cs =>
    if c = sep then [] :: splitAt sep cs
    else
      match splitAt sep cs with
      | [] => [[c]]
      | piece :: pieces => (c :: piece) :: pieces

/-- Modelled from the spec: the value of a run of decimal digits (the parser of
`cronexpr` is not part of the repository). -/
def parseDigits (acc : Nat) : List Char → Option Nat
  | [] => some acc
  | c :: cs =>
    if c.isDigit then parseDigits (acc * 10 + (c.toNat - 48)) cs else none

/-- Modelled from the spec: a number is a run of at least one decimal digit
(the parser of `cronexpr` is not part of the repository). -/
def parseNumber (cs : List Char) : Option Nat :=
  if cs.isEmpty then none else parseDigits 0 cs

/-- Modelled from the spec: the values `first, first + step, ...` up to `last`
(the parser of `cronexpr` is not part of the repository). -/
def stepValues (first last step : Nat) : List Nat :=
  (List.range' first (last + 1 - first)).filter fun v => (v - first) % step == 0

/-- Modelled from the spec: the bounds of the range part of an item of a field
whose values go from `lo` to `hi`: the wildcard is the whole field, a single
value stands for itself, or up to `hi` when a step follows, and `a-b` is the
range from `a` to `b` (the parser of `cronexpr` is not part of the
repository). -/
def parseBounds (lo hi : Nat) (stepped : Bool) (cs : List Char) : Option (Nat × Nat) :=
  if cs = ['*'] then some (lo, hi)
  else
    match splitAt '-' cs with
    | [a] => (parseNumber a).map fun v => (v, if stepped then hi else v)
    | [a, b] => (parseNumber a).bind fun v => (parseNumber b).map fun w => (v, w)
    | _ => none

/-- Modelled from the spec: one item of a comma list: a range part, with an
optional step after `/`.  A range outside the field, an empty range and a step
of zero are refused (the parser of `cronexpr` is not part of the repository).
-/
def parseItem (lo hi : Nat) (cs : List Char) : Option (List Nat) :=
  let ranged (stepped : Bool) (r : List Char) (step : Nat) : Option (List Nat) :=
    (parseBounds lo hi stepped r).bind fun b =>
      if lo ≤ b.1 ∧ b.1 ≤ b.2 ∧ b.2 ≤ hi ∧ 0 < step then some (stepValues b.1 b.2 step)
      else none
  match splitAt '/' cs with
  | [r] => ranged false r 1
  | [r, st] => (parseNumber st).bind fun step => ranged true r step
  | _ => none

/-- Modelled from the spec: the items of a comma list, joined (the parser of
`cronexpr` is not part of the repository). -/
def parseItems (lo hi : Nat) : List (List Char) → Option (List Nat)
  | [] => some []
  | item :: items =>
    (parseItem lo hi item).bind fun vs =>
      (parseItems lo hi items).map fun ws => vs ++ ws

/-- Modelled from the spec: a field is a comma list of items (the parser of
`cronexpr` is not part of the repository). -/
def parseField (lo hi : Nat) (cs : List Char) : Option (List Nat) :=
  parseItems lo hi (splitAt ',' cs)

/-- Modelled from the spec: the five fields of a recurrence expression,
separated by blanks: minute (0 to 59), hour (0 to 23), day of month (1 to 31),
month (1 to 12) and day of week (0 to 6, Sunday being 0) (the parser of
`cronexpr` is not part of the repository). -/
def parseFields (expr : String) : Option Schedule :=
  match (splitAt ' ' expr.toList).filter fun piece => !piece.isEmpty with
  | [mi, ho, dm, mo, dw] =>
    (parseField 0 59 mi).bind fun minute =>
    (parseField 0 23 ho).bind fun hour =>
    (parseField 1 31 dm).bind fun dom =>
    (parseField 1 12 mo).bind fun month =>
    (parseField 0 6 dw).map fun dow =>
    { minute := minute, hour := hour, dom := dom, month := month, dow := dow }
  | _ => none

/-- Modelled from the spec: the first whole minute, among `fuel` consecutive
ones from minute number `m` on, that satisfies the schedule (the search of
`cronexpr` is not part of the repository). -/
def searchMinutes (s : Schedule) (m : Int) : Nat → Option Int
  | 0 => none
  | fuel + 1 =>
    if s.matchesAt (m * Minute) then some (m * Minute)
    else searchMinutes s (m + 1) fuel

/-- Modelled from the spec: the number of minutes in 400 Gregorian years, after
which the calendar repeats, week days included. -/
def cycleMinutes : Nat := 146097 * 1440

/-- Modelled from the spec: the earliest instant strictly after `t` that
satisfies the schedule, if one exists (the search of `cronexpr` is not part of
the repository). -/
def Schedule.nextAfter (s : Schedule) (t : Int) : Option Int :=
  searchMinutes s (t / Minute + 1) cycleMinutes

/-- Modelled from the spec: the data model entity RecurringSchedule: parsed
fields with the invariant that some instant satisfies them (`cronexpr` is not
part of the repository). -/
structure RecurringSchedule where
  fields : Schedule
  valid : (fields.nextAfter 0).isSome = true

/-- Modelled from the spec: the two ways in which `parse` fails. -/
inductive InvalidScheduleError where
  | malformed
  | noOccurrence
deriving DecidableEq

/-- Modelled from the spec: the operation `parse` of the cron schedule
evaluator, which fails when the expression is malformed or matches no instant
ever (`cronexpr.Parse` is not part of the repository). -/
def parse (expr : String) : Except InvalidScheduleError RecurringSchedule :=
  match parseFields expr with
  | none => Except.error InvalidScheduleError.malformed
  | some f =>
    if h : (f.nextAfter 0).isSome = true then Except.ok ⟨f, h⟩
    else Except.error InvalidScheduleError.noOccurrence

/-- Modelled from the spec: the operation `next` of the cron schedule
evaluator (`Expression.Next` of `cronexpr` is not part of the repository).  The
fallback is never reached, by the invariant of the schedule. -/
def next (s : RecurringSchedule) (t : Int) : Int :=
  (s.fields.nextAfter t).getD t

/-! ## The schedules of the default expression and of the end-to-end scenario -/

/-- Modelled from the spec: the schedule that the default recurrence expression
denotes, the value of the variable `cronExpr` when no flag replaces it
(`cronexpr.MustParse` is not part of the repository). -/
def defaultSchedule : RecurringSchedule :=
  ⟨{ minute := [0, 1, 2, 3, 4, 5, 10, 11, 12, 13, 14, 15, 20, 21, 22, 23, 24, 25,
                30, 31, 32, 33, 34, 35, 40, 41, 42, 43, 44, 45, 50, 51, 52, 53, 54, 55]
     hour := List.range' 0 24
     dom := List.range' 1 31
     month := List.range' 1 12
     dow := List.range' 0 7 }, by decide⟩

/-- Modelled from the spec: the schedule that the recurrence expression
`0-5 * * * *` of the end-to-end scenario denotes. -/
def firstMinutesSchedule : RecurringSchedule :=
  ⟨{ minute := [0, 1, 2, 3, 4, 5]
     hour := List.range' 0 24
     dom := List.range' 1 31
     month := List.range' 1 12
     dow := List.range' 0 7 }, by decide⟩

/-! ## Notions used in the statements -/

/-- The reading of `next` that the claims about `time_interval` assume: for
every instant, `Next now` is the earliest occurrence strictly after `now`. -/
def IsNext (occ : Int → Prop) (Next : Int → Int) : Prop :=
  ∀ now : Int, occ (Next now) ∧ now < Next now ∧ ∀ o : Int, occ o → now < o → Next now ≤ o

/-- The oscillation period that the flags leave in force: the last value given
to `-oscillation-period`, or `dflt` when there is none. -/
def configuredPeriod : List FlagArg → Int → Int
  | [], dflt => dflt
  | FlagArg.oscillationPeriod d :: rest, _ => configuredPeriod rest d
  | _ :: rest, dflt => configuredPeriod rest dflt

/-- The registry that `main` serves: the four collectors, in the order of their
registration. -/
def servedRegistry {S : Type} (start period : Int) (cronExpr : S) : Registry S :=
  [("epoch_seconds", GaugeFunc.epochSeconds),
   ("sin", GaugeFunc.oscillation start period),
   ("time_interval", GaugeFunc.timeInterval cronExpr),
   ("go_build_info", GaugeFunc.buildInfo)]

/-! ## The value function `time_interval` -/

theorem sub_of_pos_lt_minute (t u : Int) (h0 : u < t) (h1 : t - u < Minute) :
    Sub t u = t - u := by
  unfold Sub minDuration maxDuration
  unfold Minute Second at h1
  rw [if_neg (by omega), if_neg (by omega)]

theorem minute_le_sub (t u : Int) (h1 : Minute ≤ t - u) : Minute ≤ Sub t u := by
  unfold Sub minDuration maxDuration
  unfold Minute Second at *
  split
  · omega
  · split <;> omega

theorem timeInterval_eq_one_iff (Next : Int → Int) (now : Int) (h : now < Next now) :
    timeInterval Next now = 1 ↔ Next now - now < Minute := by
  unfold timeInterval
  constructor
  · intro h1
    by_contra hc
    have := minute_le_sub (Next now) now (by omega)
    simp only [one_mul] at h1
    rw [if_neg (by omega)] at h1
    omega
  · intro h1
    simp only [one_mul]
    rw [sub_of_pos_lt_minute _ _ h h1, if_pos h1]

theorem timeInterval_zero_or_one (Next : Int → Int) (now : Int) :
    timeInterval Next now = 0 ∨ timeInterval Next now = 1 := by
  unfold timeInterval
  simp only []
  split
  · exact Or.inr rfl
  · exact Or.inl rfl

theorem near_occurrence_iff (occ : Int → Prop) (Next : Int → Int)
    (hNext : IsNext occ Next) (now : Int) :
    Next now - now < Minute ↔ ∃ o : Int, occ o ∧ 0 < o - now ∧ o - now < Minute := by
  obtain ⟨hocc, hlt, hmin⟩ := hNext now
  constructor
  · intro h
    exact ⟨Next now, hocc, by omega, h⟩
  · rintro ⟨o, ho, hpos, hnear⟩
    have := hmin o ho (by omega)
    omega

/-- C1: when `Next now` is the earliest occurrence strictly after `now`, the
value function of `time_interval` returns 1 exactly when some occurrence lies
strictly between `now` and one minute later, returns 0 exactly when none does,
never returns another value, and returns 0 when the next occurrence is exactly
one minute away; just below the threshold gives 1, just above gives 0. -/
theorem timeInterval_window (occ : Int → Prop) (Next : Int → Int)
    (hNext : IsNext occ Next) (now : Int) :
    (timeInterval Next now = 1 ↔ ∃ o : Int, occ o ∧ 0 < o - now ∧ o - now < Minute) ∧
    (timeInterval Next now = 0 ↔ ¬ ∃ o : Int, occ o ∧ 0 < o - now ∧ o - now < Minute) ∧
    (timeInterval Next now = 0 ∨ timeInterval Next now = 1) ∧
    (Next now - now = Minute → timeInterval Next now = 0) ∧
    (∀ eps : Int, 0 < eps → eps < Minute →
      Next now - now = Minute - eps → timeInterval Next now = 1) ∧
    (∀ eps : Int, 0 < eps →
      Next now - now = Minute + eps → timeInterval Next now = 0) := by
  have hlt : now < Next now := (hNext now).2.1
  have h1 := timeInterval_eq_one_iff Next now hlt
  have h01 := timeInterval_zero_or_one Next now
  have hnear := near_occurrence_iff occ Next hNext now
  have h0 : timeInterval Next now = 0 ↔ ¬ Next now - now < Minute := by
    rw [← h1]
    rcases h01 with h | h <;> simp [h]
  refine ⟨h1.trans hnear, ?_, h01, ?_, ?_, ?_⟩
  · rw [h0, hnear]
  · intro h
    exact h0.mpr (by omega)
  · intro eps hp _ h
    exact h1.mpr (by omega)
  · intro eps hp h
    exact h0.mpr (by omega)

/-! ## The search of the schedule evaluator -/

theorem searchMinutes_some (s : Schedule) :
    ∀ (fuel : Nat) (m r : Int), searchMinutes s m fuel = some r →
      ∃ j : Int, r = j * Minute ∧ m ≤ j ∧ j < m + fuel ∧ s.matchesAt r = true ∧
        ∀ i : Int, m ≤ i → i < j → s.matchesAt (i * Minute) = false := by
  intro fuel
  induction fuel with
  | zero => intro m r h; simp [searchMinutes] at h
  | succ n ih =>
    intro m r h
    unfold searchMinutes at h
    by_cases hm : s.matchesAt (m * Minute) = true
    · rw [if_pos hm] at h
      have hr : m * Minute = r := by simpa using h
      refine ⟨m, hr.symm, le_refl m, by omega, hr ▸ hm, ?_⟩
      intro i h1 h2
      omega
    · rw [if_neg hm] at h
      obtain ⟨j, hj, hmj, hjn, hmatch, hmin⟩ := ih (m + 1) r h
      refine ⟨j, hj, by omega, by push_cast; omega, hmatch, ?_⟩
      intro i h1 h2
      by_cases hi : i = m
      · subst hi
        simpa using hm
      · exact hmin i (by omega) h2

theorem searchMinutes_isSome (s : Schedule) :
    ∀ (fuel : Nat) (m j : Int), m ≤ j → j < m + fuel → s.matchesAt (j * Minute) = true →
      (searchMinutes s m fuel).isSome = true := by
  intro fuel
  induction fuel with
  | zero => intro m j h1 h2 _; simp at h2; omega
  | succ n ih =>
    intro m j h1 h2 hj
    unfold searchMinutes
    by_cases hm : s.matchesAt (m * Minute) = true
    · rw [if_pos hm]; rfl
    · rw [if_neg hm]
      have hne : j ≠ m := by
        intro h
        subst h
        exact hm hj
      exact ih (m + 1) j (by omega) (by push_cast at h2; omega) hj

/-! ## The calendar repeats every 400 years -/

theorem matchesAt_shift (s : Schedule) (t k : Int) :
    s.matchesAt (t + k * (146097 * 1440 * 60000000000)) = s.matchesAt t := by
  have h1 : nanosecondOf (t + k * (146097 * 1440 * 60000000000)) = nanosecondOf t := by
    unfold nanosecondOf Second
    congr 1
    omega
  have h2 : secondOf (t + k * (146097 * 1440 * 60000000000)) = secondOf t := by
    unfold secondOf Second
    congr 1
    omega
  have h3 : minuteOf (t + k * (146097 * 1440 * 60000000000)) = minuteOf t := by
    unfold minuteOf Minute Second
    congr 1
    omega
  have h4 : hourOf (t + k * (146097 * 1440 * 60000000000)) = hourOf t := by
    unfold hourOf Minute Second
    congr 1
    omega
  have h5 : dayNumber (t + k * (146097 * 1440 * 60000000000)) = dayNumber t + k * 146097 := by
    unfold dayNumber Minute Second
    omega
  have h6 : weekdayOf (t + k * (146097 * 1440 * 60000000000)) = weekdayOf t := by
    unfold weekdayOf
    rw [h5]
    congr 1
    omega
  have h7 : dayOfEra (t + k * (146097 * 1440 * 60000000000)) = dayOfEra t := by
    unfold dayOfEra
    rw [h5]
    omega
  have h8 : monthOf (t + k * (146097 * 1440 * 60000000000)) = monthOf t := by
    unfold monthOf
    rw [h7]
  have h9 : dayOf (t + k * (146097 * 1440 * 60000000000)) = dayOf t := by
    unfold dayOf
    rw [h7]
  unfold Schedule.matchesAt
  rw [h1, h2, h3, h4, h6, h8, h9]

theorem matchesAt_whole_minute (s : Schedule) (t : Int) (h : s.matchesAt t = true) :
    t % Minute = 0 := by
  unfold Schedule.matchesAt at h
  simp only [Bool.and_eq_true, beq_iff_eq] at h
  obtain ⟨⟨⟨⟨⟨⟨hn, hs⟩, _⟩, _⟩, _⟩, _⟩, _⟩ := h
  unfold nanosecondOf Second at hn
  unfold secondOf Second at hs
  unfold Minute Second
  omega

theorem nextAfter_isSome_of_matchesAt (s : Schedule) (r : Int)
    (hmatch : s.matchesAt r = true) (t : Int) : (s.nextAfter t).isSome = true := by
  have hwhole := matchesAt_whole_minute s r hmatch
  unfold Schedule.nextAfter
  have hshift := matchesAt_shift s r (-((r / Minute - (t / Minute + 1)) / 210379680))
  refine searchMinutes_isSome s cycleMinutes (t / Minute + 1)
    (t / Minute + 1 + (r / Minute - (t / Minute + 1)) % 210379680) ?_ ?_ ?_
  · omega
  · unfold cycleMinutes
    push_cast
    omega
  · rw [← hmatch, ← hshift]
    congr 1
    unfold Minute Second at *
    omega

theorem nextAfter_isSome_iff (s : Schedule) :
    (s.nextAfter 0).isSome = true ↔ ∃ t : Int, s.matchesAt t = true := by
  constructor
  · intro h
    obtain ⟨r, hr⟩ := Option.isSome_iff_exists.mp h
    obtain ⟨j, _, _, _, hmatch, _⟩ := searchMinutes_some s _ _ _ hr
    exact ⟨r, hmatch⟩
  · rintro ⟨r, hr⟩
    exact nextAfter_isSome_of_matchesAt s r hr 0

theorem parse_noOccurrence_iff (expr : String) (f : Schedule)
    (hf : parseFields expr = some f) :
    parse expr = Except.error InvalidScheduleError.noOccurrence ↔
      ∀ t : Int, f.matchesAt t = false := by
  unfold parse
  rw [hf]
  simp only []
  by_cases h : (f.nextAfter 0).isSome = true
  · rw [dif_pos h]
    obtain ⟨t, ht⟩ := (nextAfter_isSome_iff f).mp h
    constructor
    · intro hc
      exact Except.noConfusion hc
    · intro hall
      rw [hall t] at ht
      exact Bool.noConfusion ht
  · rw [dif_neg h]
    constructor
    · intro _ t
      by_contra hc
      exact h ((nextAfter_isSome_iff f).mpr ⟨t, by simpa using hc⟩)
    · intro _
      rfl

theorem nextAfter_isSome (s : RecurringSchedule) (t : Int) :
    (s.fields.nextAfter t).isSome = true := by
  obtain ⟨r, hr⟩ := (nextAfter_isSome_iff s.fields).mp s.valid
  exact nextAfter_isSome_of_matchesAt s.fields r hr t

theorem next_spec (s : RecurringSchedule) (t : Int) :
    s.fields.matchesAt (next s t) = true ∧ t < next s t ∧
      ∀ o : Int, s.fields.matchesAt o = true → t < o → next s t ≤ o := by
  obtain ⟨r, hr⟩ := Option.isSome_iff_exists.mp (nextAfter_isSome s t)
  have hnext : next s t = r := by
    unfold next
    rw [hr]
    rfl
  unfold Schedule.nextAfter at hr
  obtain ⟨j, hj, hmj, _, hmatch, hmin⟩ := searchMinutes_some s.fields _ _ _ hr
  rw [hnext]
  refine ⟨hmatch, ?_, ?_⟩
  · rw [hj]
    unfold Minute Second at *
    omega
  · intro o ho hto
    have hwhole := matchesAt_whole_minute s.fields o ho
    by_contra hlt
    have hfalse := hmin (o / Minute) (by unfold Minute Second at *; omega)
      (by unfold Minute Second at *; omega)
    have ho2 : o / Minute * Minute = o := by
      unfold Minute Second at *
      omega
    rw [ho2, ho] at hfalse
    exact Bool.noConfusion hfalse

theorem next_isNext (s : RecurringSchedule) :
    IsNext (fun o => s.fields.matchesAt o = true) (next s) := by
  intro now
  exact next_spec s now

/-! ## Ranges of the calendar fields -/

theorem dayOfMarchYear_range (doe : Int) (h0 : 0 ≤ doe) (h1 : doe < 146097) :
    0 ≤ dayOfMarchYear doe ∧ dayOfMarchYear doe ≤ 365 := by
  unfold dayOfMarchYear
  simp only []
  obtain ⟨f, hf⟩ : ∃ f, f = doe / 36524 := ⟨_, rfl⟩
  obtain ⟨y, hy⟩ : ∃ y, y = (doe - doe / 1460 + doe / 36524 - doe / 146096) / 365 := ⟨_, rfl⟩
  obtain ⟨c, hc⟩ : ∃ c, c = y / 100 := ⟨_, rfl⟩
  rw [← hy, ← hc]
  have hfb : 0 ≤ f ∧ f ≤ 4 := by omega
  have hcb : 0 ≤ c ∧ c ≤ 4 := by omega
  obtain ⟨hf0, hf4⟩ := hfb
  obtain ⟨hc0, hc4⟩ := hcb
  interval_cases f <;> interval_cases c <;> omega

theorem dayOfEra_range (t : Int) : 0 ≤ dayOfEra t ∧ dayOfEra t < 146097 := by
  unfold dayOfEra
  omega

theorem monthOf_range (t : Int) : 1 ≤ monthOf t ∧ monthOf t ≤ 12 := by
  obtain ⟨h0, h1⟩ := dayOfEra_range t
  obtain ⟨h2, h3⟩ := dayOfMarchYear_range (dayOfEra t) h0 h1
  unfold monthOf
  simp only []
  split <;> omega

theorem dayOf_range (t : Int) : 1 ≤ dayOf t ∧ dayOf t ≤ 31 := by
  obtain ⟨h0, h1⟩ := dayOfEra_range t
  obtain ⟨h2, h3⟩ := dayOfMarchYear_range (dayOfEra t) h0 h1
  unfold dayOf
  simp only []
  omega

theorem hourOf_range (t : Int) : hourOf t < 24 := by
  unfold hourOf
  omega

theorem weekdayOf_range (t : Int) : weekdayOf t < 7 := by
  unfold weekdayOf
  omega

theorem calendar_samples :
    (monthOf 0, dayOf 0, weekdayOf 0) = (1, 1, 4) ∧
    (monthOf (-1), dayOf (-1), weekdayOf (-1)) = (12, 31, 3) ∧
    (monthOf (11016 * (1440 * Minute)), dayOf (11016 * (1440 * Minute)),
      weekdayOf (11016 * (1440 * Minute))) = (2, 29, 2) ∧
    (monthOf (47540 * (1440 * Minute)), dayOf (47540 * (1440 * Minute)),
      weekdayOf (47540 * (1440 * Minute))) = (2, 28, 0) ∧
    (monthOf (47541 * (1440 * Minute)), dayOf (47541 * (1440 * Minute)),
      weekdayOf (47541 * (1440 * Minute))) = (3, 1, 1) ∧
    (monthOf (20088 * (1440 * Minute) + 86399 * Second),
      dayOf (20088 * (1440 * Minute) + 86399 * Second),
      hourOf (20088 * (1440 * Minute) + 86399 * Second),
      minuteOf (20088 * (1440 * Minute) + 86399 * Second),
      secondOf (20088 * (1440 * Minute) + 86399 * Second)) = (12, 31, 23, 59, 59) := by
  decide

theorem parse_day_32 :
    parse "0 0 32 * *" = Except.error InvalidScheduleError.malformed := by
  rfl

theorem matchesAt_iff (s : Schedule) (t : Int) :
    s.matchesAt t = true ↔
      nanosecondOf t = 0 ∧ secondOf t = 0 ∧ minuteOf t ∈ s.minute ∧ hourOf t ∈ s.hour ∧
        dayOf t ∈ s.dom ∧ monthOf t ∈ s.month ∧ weekdayOf t ∈ s.dow := by
  unfold Schedule.matchesAt
  simp only [Bool.and_eq_true, beq_iff_eq, List.contains, List.elem_iff]
  tauto

theorem whole_minute_iff (t : Int) :
    (nanosecondOf t = 0 ∧ secondOf t = 0) ↔ t % Minute = 0 := by
  unfold nanosecondOf secondOf Minute Second
  omega

theorem matchesAt_wildcards (s : Schedule)
    (hh : ∀ h : Nat, h < 24 → h ∈ s.hour)
    (hd : ∀ d : Nat, 1 ≤ d → d ≤ 31 → d ∈ s.dom)
    (hm : ∀ m : Nat, 1 ≤ m → m ≤ 12 → m ∈ s.month)
    (hw : ∀ w : Nat, w < 7 → w ∈ s.dow) (t : Int) :
    s.matchesAt t = true ↔ t % Minute = 0 ∧ minuteOf t ∈ s.minute := by
  rw [matchesAt_iff, ← whole_minute_iff]
  have h1 := hh _ (hourOf_range t)
  have h2 := hd _ (dayOf_range t).1 (dayOf_range t).2
  have h3 := hm _ (monthOf_range t).1 (monthOf_range t).2
  have h4 := hw _ (weekdayOf_range t)
  tauto

theorem parse_default : parse defaultCronExpression = Except.ok defaultSchedule := by
  rfl

theorem parse_firstMinutes : parse "0-5 * * * *" = Except.ok firstMinutesSchedule := by
  rfl

theorem mem_default_minute (m : Nat) :
    m ∈ defaultSchedule.fields.minute ↔ m < 60 ∧ m % 10 ≤ 5 := by
  constructor
  · intro h
    simp only [defaultSchedule, List.mem_cons, List.mem_singleton] at h
    simp only [List.not_mem_nil, or_false] at h
    omega
  · rintro ⟨h1, h2⟩
    interval_cases m <;> first | omega | decide

theorem matchesAt_default (t : Int) :
    defaultSchedule.fields.matchesAt t = true ↔ t % Minute = 0 ∧ minuteOf t % 10 ≤ 5 := by
  rw [matchesAt_wildcards defaultSchedule.fields
    (fun h hh => by simp only [defaultSchedule, List.mem_range']; exact ⟨h, by omega, by omega⟩)
    (fun d h1 h2 => by simp only [defaultSchedule, List.mem_range']; exact ⟨d - 1, by omega, by omega⟩)
    (fun m h1 h2 => by simp only [defaultSchedule, List.mem_range']; exact ⟨m - 1, by omega, by omega⟩)
    (fun w hw => by simp only [defaultSchedule, List.mem_range']; exact ⟨w, by omega, by omega⟩),
    mem_default_minute]
  have : minuteOf t < 60 := by
    unfold minuteOf
    omega
  tauto

theorem matchesAt_firstMinutes (t : Int) :
    firstMinutesSchedule.fields.matchesAt t = true ↔ t % Minute = 0 ∧ minuteOf t ≤ 5 := by
  rw [matchesAt_wildcards firstMinutesSchedule.fields
    (fun h hh => by simp only [firstMinutesSchedule, List.mem_range']; exact ⟨h, by omega, by omega⟩)
    (fun d h1 h2 => by simp only [firstMinutesSchedule, List.mem_range']; exact ⟨d - 1, by omega, by omega⟩)
    (fun m h1 h2 => by simp only [firstMinutesSchedule, List.mem_range']; exact ⟨m - 1, by omega, by omega⟩)
    (fun w hw => by simp only [firstMinutesSchedule, List.mem_range']; exact ⟨w, by omega, by omega⟩)]
  have : minuteOf t ∈ firstMinutesSchedule.fields.minute ↔ minuteOf t ≤ 5 := by
    simp only [firstMinutesSchedule, List.mem_cons, List.mem_singleton, List.not_mem_nil, or_false]
    omega
  tauto

theorem isNext_congr (occ occ2 : Int → Prop) (Next : Int → Int)
    (h : ∀ o : Int, occ o ↔ occ2 o) (hn : IsNext occ Next) : IsNext occ2 Next := by
  intro now
  obtain ⟨h1, h2, h3⟩ := hn now
  exact ⟨(h _).mp h1, h2, fun o ho hlt => h3 o ((h o).mpr ho) hlt⟩

theorem next_default_isNext :
    IsNext (fun o : Int => o % Minute = 0 ∧ minuteOf o % 10 ≤ 5) (next defaultSchedule) :=
  isNext_congr _ _ _ matchesAt_default (next_isNext defaultSchedule)

theorem near_default_occurrence_iff (now : Int) :
    (∃ o : Int, (o % Minute = 0 ∧ minuteOf o % 10 ≤ 5) ∧ 0 < o - now ∧ o - now < Minute) ↔
      now % Minute ≠ 0 ∧ (minuteOf now % 10 = 9 ∨ minuteOf now % 10 ≤ 4) := by
  constructor
  · rintro ⟨o, ⟨h1, h2⟩, h3, h4⟩
    unfold minuteOf at *
    unfold Minute Second at *
    omega
  · rintro ⟨h1, h2⟩
    refine ⟨(now / Minute + 1) * Minute, ⟨?_, ?_⟩, ?_, ?_⟩
    · unfold Minute Second
      omega
    · unfold minuteOf at *
      unfold Minute Second at *
      omega
    · unfold Minute Second at *
      omega
    · unfold Minute Second at *
      omega

/-- C1 (witness): the schedule evaluator on the default schedule is such a
`Next`, and at the Unix epoch, a whole minute, the value is 0. -/
theorem timeInterval_window_witness :
    IsNext (fun o : Int => defaultSchedule.fields.matchesAt o = true) (next defaultSchedule) ∧
    ((timeInterval (next defaultSchedule) 0 = 1 ↔
        ∃ o : Int, defaultSchedule.fields.matchesAt o = true ∧ 0 < o - 0 ∧ o - 0 < Minute) ∧
      (timeInterval (next defaultSchedule) 0 = 0 ↔
        ¬ ∃ o : Int, defaultSchedule.fields.matchesAt o = true ∧ 0 < o - 0 ∧ o - 0 < Minute) ∧
      (timeInterval (next defaultSchedule) 0 = 0 ∨ timeInterval (next defaultSchedule) 0 = 1) ∧
      (next defaultSchedule 0 - 0 = Minute → timeInterval (next defaultSchedule) 0 = 0) ∧
      (∀ eps : Int, 0 < eps → eps < Minute →
        next defaultSchedule 0 - 0 = Minute - eps → timeInterval (next defaultSchedule) 0 = 1) ∧
      (∀ eps : Int, 0 < eps →
        next defaultSchedule 0 - 0 = Minute + eps → timeInterval (next defaultSchedule) 0 = 0)) :=
  ⟨next_isNext defaultSchedule,
    timeInterval_window _ (next defaultSchedule) (next_isNext defaultSchedule) 0⟩

/-- C2 (counterexample): on 2000-01-01 at 00:58:00 UTC, with the expression
`0-5 * * * *`, the next occurrence is 01:00:00, two minutes away, and the
window-membership value is 0, not 1. -/
theorem minute_58_counterexample :
    ∃ s : RecurringSchedule, parse "0-5 * * * *" = Except.ok s ∧
      next s (946684800 * Second + 58 * Minute) = 946684800 * Second + 60 * Minute ∧
      timeInterval (next s) (946684800 * Second + 58 * Minute) = 0 ∧
      timeInterval (next s) (946684800 * Second + 58 * Minute) ≠ 1 :=
  ⟨firstMinutesSchedule, parse_firstMinutes, by decide, by decide, by decide⟩

/-- C2 (amended): the expression `0-5 * * * *` parses, and for every hour,
counted from the Unix epoch, at minute 58 of that hour exactly the next
occurrence is the start of the following hour, two minutes away, and the
window-membership value is 0. -/
theorem scenario_at_minute_58 :
    ∃ s : RecurringSchedule, parse "0-5 * * * *" = Except.ok s ∧
      ∀ hh : Int,
        next s (hh * (60 * Minute) + 58 * Minute) = (hh + 1) * (60 * Minute) ∧
        timeInterval (next s) (hh * (60 * Minute) + 58 * Minute) = 0 := by
  refine ⟨firstMinutesSchedule, parse_firstMinutes, ?_⟩
  intro hh
  obtain ⟨hocc, hlt, hmin⟩ := next_spec firstMinutesSchedule (hh * (60 * Minute) + 58 * Minute)
  have htarget : firstMinutesSchedule.fields.matchesAt ((hh + 1) * (60 * Minute)) = true := by
    rw [matchesAt_firstMinutes]
    unfold minuteOf Minute Second
    omega
  have hle := hmin _ htarget (by unfold Minute Second; omega)
  rw [matchesAt_firstMinutes] at hocc
  have heq : next firstMinutesSchedule (hh * (60 * Minute) + 58 * Minute)
      = (hh + 1) * (60 * Minute) := by
    obtain ⟨h1, h2⟩ := hocc
    unfold minuteOf at h2
    unfold Minute Second at *
    omega
  refine ⟨heq, ?_⟩
  rcases timeInterval_zero_or_one (next firstMinutesSchedule)
    (hh * (60 * Minute) + 58 * Minute) with h | h
  · exact h
  · rw [timeInterval_eq_one_iff _ _ hlt, heq] at h
    unfold Minute Second at h
    omega

/-- C7: for every schedule and every reference instant, the instant that
`next` returns is strictly later than the reference, is a whole minute, and
its minute, hour, day of month, month and day of week each satisfy the
constraint of their field. -/
theorem next_strictly_after_and_matches (s : RecurringSchedule) (t : Int) :
    t < next s t ∧ nanosecondOf (next s t) = 0 ∧ secondOf (next s t) = 0 ∧
      minuteOf (next s t) ∈ s.fields.minute ∧ hourOf (next s t) ∈ s.fields.hour ∧
      dayOf (next s t) ∈ s.fields.dom ∧ monthOf (next s t) ∈ s.fields.month ∧
      weekdayOf (next s t) ∈ s.fields.dow := by
  obtain ⟨hocc, hlt, _⟩ := next_spec s t
  exact ⟨hlt, (matchesAt_iff s.fields _).mp hocc⟩

/-- C8: the default recurrence expression parses; its minute field admits
exactly the minutes `m` of `0..59` with `m % 10 ≤ 5`, its other fields admit
every hour, day of month, month and day of week; so an instant satisfies it
exactly when it is a whole minute whose minute of the hour `m` has
`m % 10 ≤ 5`: six consecutive minutes from every tenth minute on. -/
theorem default_expression_minutes :
    ∃ s : RecurringSchedule, parse defaultCronExpression = Except.ok s ∧
      (∀ m : Nat, m ∈ s.fields.minute ↔ m < 60 ∧ m % 10 ≤ 5) ∧
      (∀ h : Nat, h ∈ s.fields.hour ↔ h < 24) ∧
      (∀ d : Nat, d ∈ s.fields.dom ↔ 1 ≤ d ∧ d ≤ 31) ∧
      (∀ m : Nat, m ∈ s.fields.month ↔ 1 ≤ m ∧ m ≤ 12) ∧
      (∀ w : Nat, w ∈ s.fields.dow ↔ w < 7) ∧
      (∀ t : Int, s.fields.matchesAt t = true ↔ t % Minute = 0 ∧ minuteOf t % 10 ≤ 5) ∧
      (∀ k : Nat, k < 6 → ∀ j : Nat, j ≤ 5 → 10 * k + j ∈ s.fields.minute) := by
  refine ⟨defaultSchedule, parse_default, mem_default_minute, ?_, ?_, ?_, ?_,
    matchesAt_default, ?_⟩
  · intro h
    simp only [defaultSchedule, List.mem_range']
    constructor
    · rintro ⟨i, hi, rfl⟩; omega
    · intro hh; exact ⟨h, by omega, by omega⟩
  · intro d
    simp only [defaultSchedule, List.mem_range']
    constructor
    · rintro ⟨i, hi, rfl⟩; omega
    · intro hh; exact ⟨d - 1, by omega, by omega⟩
  · intro m
    simp only [defaultSchedule, List.mem_range']
    constructor
    · rintro ⟨i, hi, rfl⟩; omega
    · intro hh; exact ⟨m - 1, by omega, by omega⟩
  · intro w
    simp only [defaultSchedule, List.mem_range']
    constructor
    · rintro ⟨i, hi, rfl⟩; omega
    · intro hh; exact ⟨w, by omega, by omega⟩
  · intro k hk j hj
    rw [mem_default_minute]
    omega

/-- C10: with `Next now` the earliest whole minute strictly after `now` whose
minute of the hour `m` has `m % 10 ≤ 5`, the value of `time_interval` is 1
exactly when `now` is not a whole minute and its minute of the hour, modulo
10, is one of 9, 0, 1, 2, 3, 4, and 0 otherwise: 0 at every whole minute, 0
throughout minute 5 of a range, 1 inside the minute before a range starts. -/
theorem timeInterval_default_schedule (Next : Int → Int)
    (hNext : IsNext (fun o : Int => o % Minute = 0 ∧ minuteOf o % 10 ≤ 5) Next) (now : Int) :
    (timeInterval Next now = 1 ↔
      now % Minute ≠ 0 ∧ (minuteOf now % 10 = 9 ∨ minuteOf now % 10 ≤ 4)) ∧
    (timeInterval Next now = 0 ↔
      ¬ (now % Minute ≠ 0 ∧ (minuteOf now % 10 = 9 ∨ minuteOf now % 10 ≤ 4))) ∧
    (now % Minute = 0 → timeInterval Next now = 0) ∧
    (minuteOf now % 10 = 5 → timeInterval Next now = 0) ∧
    (now % Minute ≠ 0 → minuteOf now % 10 = 9 → timeInterval Next now = 1) := by
  have hlt : now < Next now := (hNext now).2.1
  have h1 : timeInterval Next now = 1 ↔
      now % Minute ≠ 0 ∧ (minuteOf now % 10 = 9 ∨ minuteOf now % 10 ≤ 4) := by
    rw [timeInterval_eq_one_iff Next now hlt, near_occurrence_iff _ Next hNext now]
    exact near_default_occurrence_iff now
  have h0 : timeInterval Next now = 0 ↔
      ¬ (now % Minute ≠ 0 ∧ (minuteOf now % 10 = 9 ∨ minuteOf now % 10 ≤ 4)) := by
    rw [← h1]
    rcases timeInterval_zero_or_one Next now with h | h <;> simp [h]
  refine ⟨h1, h0, ?_, ?_, ?_⟩
  · intro h
    exact h0.mpr (fun hc => hc.1 h)
  · intro h
    exact h0.mpr (fun hc => by omega)
  · intro h h9
    exact h1.mpr ⟨h, Or.inl h9⟩

/-- C10 (witness): the schedule evaluator on the default schedule is such a
`Next`; half a minute into 00:09 on 1970-01-01 the value is 1. -/
theorem timeInterval_default_schedule_witness :
    IsNext (fun o : Int => o % Minute = 0 ∧ minuteOf o % 10 ≤ 5) (next defaultSchedule) ∧
    timeInterval (next defaultSchedule) (9 * Minute + 30 * Second) = 1 :=
  ⟨next_default_isNext,
    ((timeInterval_default_schedule (next defaultSchedule) next_default_isNext
      (9 * Minute + 30 * Second)).2.2.2.2) (by decide) (by decide)⟩

/-! ## Startup -/

theorem register_all {S : Type} (start period : Int) (e : S) :
    ((mustRegister [] "epoch_seconds" GaugeFunc.epochSeconds).bind fun r1 =>
      (mustRegister r1 "sin" (GaugeFunc.oscillation start period)).bind fun r2 =>
      (mustRegister r2 "time_interval" (GaugeFunc.timeInterval e)).bind fun r3 =>
      mustRegister r3 "go_build_info" GaugeFunc.buildInfo)
      = some (servedRegistry start period e) := by
  simp [mustRegister, servedRegistry]

theorem flagParse_some {E S : Type} (parse : String → Except E S) :
    ∀ (args : List FlagArg) (st : FlagState S), FlagArg.rejected ∉ args →
      (∀ v ∈ cronValues args, ∃ e, parse v = Except.ok e) →
      ∃ st2 : FlagState S, flagParse parse args st = some st2 ∧
        st2.oscillationPeriod = configuredPeriod args st.oscillationPeriod ∧
        (cronValues args = [] → st2.cronExpr = st.cronExpr) ∧
        (∀ v e, (cronValues args).getLast? = some v → parse v = Except.ok e →
          st2.cronExpr = e) := by
  intro args
  induction args with
  | nil =>
    intro st _ _
    exact ⟨st, rfl, rfl, fun _ => rfl, fun v e h => by simp [cronValues] at h⟩
  | cons a rest ih =>
    intro st hrej hcron
    have hrej2 : FlagArg.rejected ∉ rest := fun h => hrej (List.mem_cons_of_mem _ h)
    cases a with
    | listenAddress v =>
      obtain ⟨st2, h1, h2, h3, h4⟩ := ih { st with addr := v } hrej2 hcron
      exact ⟨st2, h1, h2, h3, h4⟩
    | oscillationPeriod d =>
      obtain ⟨st2, h1, h2, h3, h4⟩ := ih { st with oscillationPeriod := d } hrej2 hcron
      exact ⟨st2, h1, h2, h3, h4⟩
    | cronExpression v =>
      obtain ⟨e, he⟩ := hcron v (by simp [cronValues])
      obtain ⟨st2, h1, h2, h3, h4⟩ := ih { st with cronExpr := e } hrej2
        (fun w hw => hcron w (by simp [cronValues, hw]))
      refine ⟨st2, ?_, h2, ?_, ?_⟩
      · simp only [flagParse, he]
        exact h1
      · intro h
        simp [cronValues] at h
      · intro w e2 hw hpe
        by_cases hrest : cronValues rest = []
        · have hvw : v = w := by simpa [cronValues, hrest] using hw
          subst hvw
          rw [he] at hpe
          have hee : e = e2 := by injection hpe
          rw [← hee]
          exact h3 hrest
        · have hw2 : (cronValues rest).getLast? = some w := by
            simpa [cronValues, List.getLast?_cons_cons, hrest,
              List.getLast?_eq_getLast, List.getLast_cons hrest] using hw
          exact h4 w e2 hw2 hpe
    | rejected => exact absurd (List.mem_cons_self _ _) hrej

theorem flagParse_none_iff {E S : Type} (parse : String → Except E S) :
    ∀ (args : List FlagArg) (st : FlagState S), FlagArg.rejected ∉ args →
      (flagParse parse args st = none ↔
        ∃ v ∈ cronValues args, ∃ err, parse v = Except.error err) := by
  intro args
  induction args with
  | nil =>
    intro st _
    simp [flagParse, cronValues]
  | cons a rest ih =>
    intro st hrej
    have hrej2 : FlagArg.rejected ∉ rest := fun h => hrej (List.mem_cons_of_mem _ h)
    cases a with
    | listenAddress v => simpa [flagParse, cronValues] using ih _ hrej2
    | oscillationPeriod d => simpa [flagParse, cronValues] using ih _ hrej2
    | cronExpression v =>
      cases hp : parse v with
      | error err =>
        simp only [flagParse, hp, cronValues, true_iff]
        exact ⟨v, List.mem_cons_self _ _, err, hp⟩
      | ok e =>
        simp only [flagParse, hp, cronValues]
        rw [ih _ hrej2]
        constructor
        · rintro ⟨w, hw, err, herr⟩
          exact ⟨w, List.mem_cons_of_mem _ hw, err, herr⟩
        · rintro ⟨w, hw, err, herr⟩
          rcases List.mem_cons.mp hw with h | h
          · subst h
            rw [hp] at herr
            exact Except.noConfusion herr
          · exact ⟨w, h, err, herr⟩
    | rejected => exact absurd (List.mem_cons_self _ _) hrej

theorem main_of_flagParse_some {E S : Type} (parse : String → Except E S) (dflt : S)
    (hd : parse defaultCronExpression = Except.ok dflt) (args : List FlagArg) (start : Int)
    (st : FlagState S) (h : flagParse parse args ⟨":8080", 5 * Minute, dflt⟩ = some st) :
    main parse args start
      = Outcome.serving st.addr (servedRegistry start st.oscillationPeriod st.cronExpr) := by
  unfold main
  simp only [hd, h, register_all]

theorem main_of_flagParse_none {E S : Type} (parse : String → Except E S) (dflt : S)
    (hd : parse defaultCronExpression = Except.ok dflt) (args : List FlagArg) (start : Int)
    (h : flagParse parse args ⟨":8080", 5 * Minute, dflt⟩ = none) :
    main parse args start = Outcome.exited := by
  unfold main
  simp only [hd, h]

/-- C5 (counterexample): started with `-oscillation-period` zero, and likewise
with minus one minute, `main` does not refuse to start: it reaches the serving
state with the gauge `sin` registered under that period. -/
theorem nonpositive_period_counterexample :
    main parse [FlagArg.oscillationPeriod 0] 0
        = Outcome.serving ":8080" (servedRegistry 0 0 defaultSchedule) ∧
      main parse [FlagArg.oscillationPeriod (-Minute)] 0
        = Outcome.serving ":8080" (servedRegistry 0 (-Minute) defaultSchedule) ∧
      ("sin", GaugeFunc.oscillation 0 0) ∈ servedRegistry 0 0 defaultSchedule :=
  ⟨rfl, rfl, by simp [servedRegistry]⟩

/-- C5 (amended): a configured oscillation period that is zero or negative is
not rejected.  On a command line that the flag package accepts and whose
`-cron-expression` values all parse, `main` reaches the serving state with the
gauge `sin` registered under the configured period, whatever its sign. -/
theorem nonpositive_period_accepted {E S : Type} (parse : String → Except E S) (dflt : S)
    (hd : parse defaultCronExpression = Except.ok dflt) (args : List FlagArg)
    (hargs : FlagArg.rejected ∉ args)
    (hcron : ∀ v ∈ cronValues args, ∃ e, parse v = Except.ok e)
    (p : Int) (hp : configuredPeriod args (5 * Minute) = p) (_hneg : p ≤ 0) (start : Int) :
    ∃ (addr : String) (e : S),
      main parse args start = Outcome.serving addr (servedRegistry start p e) ∧
      ("sin", GaugeFunc.oscillation start p) ∈ servedRegistry start p e := by
  obtain ⟨st, h1, h2, _, _⟩ := flagParse_some parse args ⟨":8080", 5 * Minute, dflt⟩ hargs hcron
  refine ⟨st.addr, st.cronExpr, ?_, by simp [servedRegistry]⟩
  rw [main_of_flagParse_some parse dflt hd args start st h1, h2, hp]

/-- C5 (witness): the command line `-oscillation-period=0s` with the schedule
evaluator as parser. -/
theorem nonpositive_period_accepted_witness :
    ∃ (addr : String) (e : RecurringSchedule),
      main parse [FlagArg.oscillationPeriod 0] 0 = Outcome.serving addr (servedRegistry 0 0 e) ∧
      ("sin", GaugeFunc.oscillation 0 0) ∈ servedRegistry 0 0 e :=
  nonpositive_period_accepted parse defaultSchedule parse_default [FlagArg.oscillationPeriod 0]
    (by decide) (by simp [cronValues]) 0 rfl (le_refl 0) 0

/-- C6: on a command line that the flag package accepts, with a default
expression that parses: without `-cron-expression` the schedule served is
the default; when every value given parses, it is the parse of the last
value given; `main` reaches the serving state exactly when every value given
parses, and exits, before any registration, exactly when some value given
fails to parse. -/
theorem schedule_resolution {E S : Type} (parse : String → Except E S) (dflt : S)
    (hd : parse defaultCronExpression = Except.ok dflt) (args : List FlagArg)
    (hargs : FlagArg.rejected ∉ args) (start : Int) :
    (cronValues args = [] →
      ∃ (addr : String) (p : Int),
        main parse args start = Outcome.serving addr (servedRegistry start p dflt)) ∧
    ((∀ v ∈ cronValues args, ∃ e, parse v = Except.ok e) →
      ∀ v e, (cronValues args).getLast? = some v → parse v = Except.ok e →
        ∃ (addr : String) (p : Int),
          main parse args start = Outcome.serving addr (servedRegistry start p e)) ∧
    ((∃ (addr : String) (reg : Registry S), main parse args start = Outcome.serving addr reg) ↔
      ∀ v ∈ cronValues args, ∃ e, parse v = Except.ok e) ∧
    (main parse args start = Outcome.exited ↔
      ∃ v ∈ cronValues args, ∃ err, parse v = Except.error err) := by
  have hnone := flagParse_none_iff parse args ⟨":8080", 5 * Minute, dflt⟩ hargs
  have hsome := flagParse_some parse args ⟨":8080", 5 * Minute, dflt⟩ hargs
  have hexit : main parse args start = Outcome.exited ↔
      ∃ v ∈ cronValues args, ∃ err, parse v = Except.error err := by
    rw [← hnone]
    constructor
    · intro h
      cases hf : flagParse parse args ⟨":8080", 5 * Minute, dflt⟩ with
      | none => rfl
      | some st =>
        rw [main_of_flagParse_some parse dflt hd args start st hf] at h
        exact Outcome.noConfusion h
    · exact main_of_flagParse_none parse dflt hd args start
  refine ⟨?_, ?_, ?_, hexit⟩
  · intro hempty
    obtain ⟨st, h1, _, h3, _⟩ := hsome (by simp [hempty])
    refine ⟨st.addr, st.oscillationPeriod, ?_⟩
    rw [main_of_flagParse_some parse dflt hd args start st h1, h3 hempty]
  · intro hall v e hv hp
    obtain ⟨st, h1, _, _, h4⟩ := hsome hall
    refine ⟨st.addr, st.oscillationPeriod, ?_⟩
    rw [main_of_flagParse_some parse dflt hd args start st h1, h4 v e hv hp]
  · constructor
    · rintro ⟨addr, reg, h⟩ v hv
      cases hp : parse v with
      | ok e => exact ⟨e, rfl⟩
      | error err =>
        rw [hexit.mpr ⟨v, hv, err, hp⟩] at h
        exact Outcome.noConfusion h
    · intro hall
      obtain ⟨st, h1, _, _, _⟩ := hsome hall
      exact ⟨st.addr, _, main_of_flagParse_some parse dflt hd args start st h1⟩

/-- C6 (witness): with the schedule evaluator as parser, a command line whose
second `-cron-expression` value names day of month 32 makes `main` exit, and
one with two values that parse is served with the schedule of the last. -/
theorem schedule_resolution_witness :
    main parse [FlagArg.cronExpression "0-5 * * * *", FlagArg.cronExpression "0 0 32 * *"] 0
        = Outcome.exited ∧
      ∃ (addr : String) (p : Int),
        main parse [FlagArg.cronExpression "*/5 * * * *",
            FlagArg.cronExpression "0-5 * * * *"] 0
          = Outcome.serving addr (servedRegistry 0 p firstMinutesSchedule) :=
  ⟨(schedule_resolution parse defaultSchedule parse_default
      [FlagArg.cronExpression "0-5 * * * *", FlagArg.cronExpression "0 0 32 * *"]
      (by decide) 0).2.2.2.mpr
      ⟨"0 0 32 * *", by simp [cronValues], InvalidScheduleError.malformed, parse_day_32⟩,
    (schedule_resolution parse defaultSchedule parse_default
      [FlagArg.cronExpression "*/5 * * * *", FlagArg.cronExpression "0-5 * * * *"]
      (by decide) 0).2.1
      (by
        intro v hv
        simp only [cronValues, List.mem_cons, List.mem_singleton, List.not_mem_nil,
          or_false] at hv
        rcases hv with h | h
        · subst h
          exact ⟨_, rfl⟩
        · subst h
          exact ⟨_, parse_firstMinutes⟩)
      "0-5 * * * *" firstMinutesSchedule rfl parse_firstMinutes⟩

/-! ## The value function `epoch_seconds` -/

theorem roundToMultiple_cases (e a : Nat) :
    roundToMultiple e a = a / 2 ^ e * 2 ^ e ∨ roundToMultiple e a = (a / 2 ^ e + 1) * 2 ^ e := by
  unfold roundToMultiple
  simp only []
  split_ifs <;> simp

theorem roundToMultiple_mono (e a b : Nat) (he : 1 ≤ e) (hab : a ≤ b) :
    roundToMultiple e a ≤ roundToMultiple e b := by
  unfold roundToMultiple
  simp only []
  have hP : 2 ^ e = 2 * 2 ^ (e - 1) := by
    have h1 : e = (e - 1) + 1 := by omega
    conv_lhs => rw [h1, pow_succ]
    omega
  generalize 2 ^ (e - 1) = h at *
  generalize 2 ^ e = P at *
  have hq : a / P ≤ b / P := Nat.div_le_div_right hab
  have ha := Nat.div_add_mod a P
  have hb := Nat.div_add_mod b P
  have h2 : a / P * P ≤ (a / P + 1) * P := Nat.mul_le_mul_right P (Nat.le_succ _)
  have h3 : b / P * P ≤ (b / P + 1) * P := Nat.mul_le_mul_right P (Nat.le_succ _)
  rcases Nat.lt_or_eq_of_le hq with hlt | heq
  · have h1 : (a / P + 1) * P ≤ b / P * P := Nat.mul_le_mul_right P hlt
    split_ifs <;> omega
  · rw [heq] at ha
    rw [heq]
    have hr : a % P ≤ b % P := by omega
    split_ifs <;> omega

theorem roundNat53_range (a : Nat) (h : 2 ^ 53 ≤ a) :
    2 ^ Nat.log2 a ≤ roundNat53 a ∧ roundNat53 a ≤ 2 ^ (Nat.log2 a + 1) := by
  have hne : a ≠ 0 := by
    intro h0
    subst h0
    simp at h
  have hk : 53 ≤ Nat.log2 a := (Nat.le_log2 hne).mpr h
  have hlo : 2 ^ Nat.log2 a ≤ a := Nat.log2_self_le hne
  have hhi : a < 2 ^ (Nat.log2 a + 1) := Nat.lt_log2_self
  have hsplit : Nat.log2 a = 52 + (Nat.log2 a - 52) := by omega
  have hpow : 2 ^ Nat.log2 a = 2 ^ 52 * 2 ^ (Nat.log2 a - 52) := by
    conv_lhs => rw [hsplit, pow_add]
  have hpow1 : 2 ^ (Nat.log2 a + 1) = 2 ^ 53 * 2 ^ (Nat.log2 a - 52) := by
    have h1 : Nat.log2 a + 1 = 53 + (Nat.log2 a - 52) := by omega
    conv_lhs => rw [h1, pow_add]
  have hround : roundNat53 a = roundToMultiple (Nat.log2 a - 52) a := by
    unfold roundNat53
    rw [if_neg (by omega)]
  rw [hround, hpow, hpow1]
  rw [hpow] at hlo
  rw [hpow1] at hhi
  have hPpos : 0 < 2 ^ (Nat.log2 a - 52) := Nat.two_pow_pos _
  have hc := roundToMultiple_cases (Nat.log2 a - 52) a
  generalize roundToMultiple (Nat.log2 a - 52) a = R at *
  generalize 2 ^ (Nat.log2 a - 52) = P at *
  have hq1 : 2 ^ 52 ≤ a / P := (Nat.le_div_iff_mul_le hPpos).mpr hlo
  have hq2 : a / P < 2 ^ 53 := (Nat.div_lt_iff_lt_mul hPpos).mpr hhi
  have h1 : 2 ^ 52 * P ≤ a / P * P := Nat.mul_le_mul_right P hq1
  have h2 : (a / P + 1) * P ≤ 2 ^ 53 * P := Nat.mul_le_mul_right P hq2
  have h3 : a / P * P ≤ (a / P + 1) * P := Nat.mul_le_mul_right P (Nat.le_succ _)
  rcases hc with hc | hc <;> omega

theorem roundNat53_mono (a b : Nat) (hab : a ≤ b) : roundNat53 a ≤ roundNat53 b := by
  by_cases ha : a < 2 ^ 53
  · have hra : roundNat53 a = a := by
      unfold roundNat53
      rw [if_pos ha]
    by_cases hb : b < 2 ^ 53
    · have hrb : roundNat53 b = b := by
        unfold roundNat53
        rw [if_pos hb]
      omega
    · have hb2 : 2 ^ 53 ≤ b := by omega
      have hne : b ≠ 0 := by
        intro h0
        subst h0
        simp at hb2
      have hk : 2 ^ 53 ≤ 2 ^ Nat.log2 b :=
        Nat.pow_le_pow_right (by decide) ((Nat.le_log2 hne).mpr hb2)
      have := (roundNat53_range b hb2).1
      omega
  · have ha2 : 2 ^ 53 ≤ a := by omega
    have hb2 : 2 ^ 53 ≤ b := by omega
    have hnea : a ≠ 0 := by
      intro h0
      subst h0
      simp at ha2
    have hneb : b ≠ 0 := by
      intro h0
      subst h0
      simp at hb2
    have hkab : Nat.log2 a ≤ Nat.log2 b :=
      (Nat.le_log2 hneb).mpr (le_trans (Nat.log2_self_le hnea) hab)
    rcases Nat.lt_or_eq_of_le hkab with hlt | heq
    · have h1 := (roundNat53_range a ha2).2
      have h2 := (roundNat53_range b hb2).1
      have h3 : 2 ^ (Nat.log2 a + 1) ≤ 2 ^ Nat.log2 b := Nat.pow_le_pow_right (by decide) hlt
      omega
    · have hk : 53 ≤ Nat.log2 a := (Nat.le_log2 hnea).mpr ha2
      unfold roundNat53
      rw [if_neg (by omega), if_neg (by omega), ← heq]
      exact roundToMultiple_mono _ a b (by omega) hab

theorem float64OfInt_mono (m n : Int) (h : m ≤ n) : float64OfInt m ≤ float64OfInt n := by
  unfold float64OfInt
  by_cases hm : 0 ≤ m
  · have hn : 0 ≤ n := le_trans hm h
    rw [if_pos hm, if_pos hn]
    exact_mod_cast roundNat53_mono _ _ (by omega)
  · rw [if_neg hm]
    by_cases hn : 0 ≤ n
    · rw [if_pos hn]
      omega
    · rw [if_neg hn]
      have := roundNat53_mono (-n).toNat (-m).toNat (by omega)
      omega

theorem float64OfInt_exact (n : Int) (h1 : -2 ^ 53 < n) (h2 : n < 2 ^ 53) :
    float64OfInt n = n := by
  unfold float64OfInt roundNat53
  by_cases hn : 0 ≤ n
  · rw [if_pos hn, if_pos (by omega)]
    omega
  · rw [if_neg hn, if_pos (by omega)]
    omega

/-- C9: the value function of `epoch_seconds` returns the number of whole
seconds from the Unix epoch to the instant it reads (exactly, for every
instant less than `2 ^ 53` seconds away from the epoch, as is every instant
that a 64-bit count of nanoseconds can hold), and it is monotonically
non-decreasing in that instant, for all instants. -/
theorem epochSeconds_whole_seconds_monotone :
    (∀ now : Int, Unix now * Second ≤ now ∧ now < (Unix now + 1) * Second) ∧
    (∀ now : Int, -2 ^ 53 < Unix now → Unix now < 2 ^ 53 → epochSeconds now = Unix now) ∧
    (∀ now : Int, -2 ^ 63 ≤ now → now < 2 ^ 63 → epochSeconds now = Unix now) ∧
    (∀ t1 t2 : Int, t1 ≤ t2 → epochSeconds t1 ≤ epochSeconds t2) := by
  refine ⟨?_, ?_, ?_, ?_⟩
  · intro now
    unfold Unix Second
    omega
  · intro now h1 h2
    exact float64OfInt_exact _ h1 h2
  · intro now h1 h2
    apply float64OfInt_exact
    · unfold Unix Second
      omega
    · unfold Unix Second
      omega
  · intro t1 t2 h
    apply float64OfInt_mono
    unfold Unix Second
    omega

/-- C9 (witness): on 2025-11-04 at 00:00:00.5 UTC the value is 1762214400. -/
theorem epochSeconds_witness :
    epochSeconds 1762214400500000000 = 1762214400 ∧
      epochSeconds 1762214400500000000 ≤ epochSeconds 1762214401000000000 :=
  ⟨(epochSeconds_whole_seconds_monotone.2.2.1 1762214400500000000
      (by decide) (by decide)).trans (by decide),
    epochSeconds_whole_seconds_monotone.2.2.2 _ _ (by decide)⟩

end TimeIntervalExporter
